import Mathlib

/-!
Verification of the qlib backtest executor hierarchy
(`qlib/contrib/backtest/executor.py` and `qlib/contrib/backtest/__init__.py`)
against its natural-language specification.

The executor code is embedded shallowly: the two concrete executor classes
(`SimulatorExecutor`, `SplitExecutor`) become pure Lean functions over explicit
state records, and the Python generators (`collect_data`) become explicit
trace objects recording every suspension point together with the machine state
at that point.  Collaborator classes that are not part of the analysed sources
(`TradeCalendarManager`, `Account`, `Exchange`, the strategy base class,
`parse_freq`, the global config) are modelled from the specification; each such
definition carries a doc comment saying so.
-/

namespace QlibBacktest

/-- A trade time range `(start_time, end_time)`, timestamps as naturals. -/
def TimeRange := Nat × Nat
deriving DecidableEq, Repr

/-- Modelled from the spec: `TradeCalendarManager` (qlib/contrib/backtest/utils.py,
not under the analysed sources).  It partitions the range starting at `rstart`
into `barCount` bars of length `flen`; `index` is the 0-based current position,
`0 ≤ index ≤ barCount`, and `finished()` holds iff `index = barCount`. -/
structure Cal where
  rstart : Nat
  flen : Nat
  barCount : Nat
  index : Nat
deriving DecidableEq, Repr

/-- Modelled from the spec: `TradeCalendarManager.step` increments the current
index (the spec's `step()`; the failing call on an exhausted calendar is a
fatal caller error and every use below is guarded by `finished()`). -/
def Cal.step (c : Cal) : Cal := { c with index := c.index + 1 }

/-- Modelled from the spec: `TradeCalendarManager.finished`, true iff the
current index has reached the bar count. -/
def Cal.finished (c : Cal) : Bool := decide (c.barCount ≤ c.index)

/-- Modelled from the spec: `TradeCalendarManager.get_trade_index`, the 1-based
index of the bar just stepped into. -/
def Cal.get_trade_index (c : Cal) : Nat := c.index

/-- Modelled from the spec: `TradeCalendarManager.get_calendar_time i`, the
half-open time window of the `i`-th (1-based) bar. -/
def Cal.get_calendar_time (c : Cal) (i : Nat) : TimeRange :=
  (c.rstart + (i - 1) * c.flen, c.rstart + i * c.flen)

/-- The time window of the bar the calendar currently stands in
(`get_calendar_time (get_trade_index)` as used in `execute`). -/
def Cal.bounds (c : Cal) : TimeRange := c.get_calendar_time c.get_trade_index

/-- Modelled from the spec: building a `TradeCalendarManager` for a time window
(`BaseExecutor.reset` with `start_time`/`end_time`): the window is partitioned
into bars of length `flen`. -/
def mkCal (flen start endt : Nat) : Cal :=
  { rstart := start, flen := flen, barCount := (endt - start) / flen, index := 0 }

/-- An order as constructed by a strategy: instrument id, direction
(`Order.SELL = 0`, `Order.BUY = 1`), requested amount and adjustment factor. -/
structure Order where
  stock_id : Nat
  direction : Nat
  amount : Int
  factor : Int
deriving DecidableEq, Repr

/-- A trade decision: an ordered sequence of orders. -/
def Decision := List Order

/-- One entry of an `execute` result list:
`(order, trade_val, trade_cost, trade_price)`. -/
def DealtItem := Order × Int × Int × Int

/-- Modelled from the spec: `Account` (qlib/contrib/backtest/account.py, not
under the analysed sources).  `ledger` abstracts the cash/position state
mutated by `Exchange.deal_order`; `bar_count` and `report_rows` are the
per-bar bookkeeping touched by `update_bar_count` / `update_bar_report`. -/
structure Account where
  ledger : Int
  bar_count : Nat
  report_rows : List TimeRange
deriving DecidableEq, Repr

/-- Modelled from the spec: `Account.update_bar_count` increments the number of
completed bars (one half of the spec's `mark_bar_end`). -/
def Account.update_bar_count (a : Account) : Account :=
  { a with bar_count := a.bar_count + 1 }

/-- Modelled from the spec: `Account.update_bar_report` appends one report row
for the completed bar's time range (the other half of `mark_bar_end`). -/
def Account.update_bar_report (a : Account) (tr : TimeRange) : Account :=
  { a with report_rows := a.report_rows ++ [tr] }

/-- Modelled from the spec: `Exchange` (qlib/contrib/backtest/exchange.py, not
under the analysed sources).  `check` is the deterministic validation
`check_order`; `deal` is `deal_order`, returning the updated account ledger and
`(trade_val, trade_cost, trade_price)`. -/
structure Exchange where
  check : Order → Bool
  deal : Order → Int → Int × Int × Int × Int

/-- Configuration attributes of a `SimulatorExecutor` instance fixed at
construction/reset time: `time_per_step`, the bar length it induces, the
`generate_report`/`track_data` flags and the exchange. -/
structure SimConf where
  time_per_step : String
  flen : Nat
  generate_report : Bool
  track_data : Bool
  exchange : Exchange

/-- The mutable state of a `SimulatorExecutor`: its trade calendar and its
trade account. -/
structure SimState where
  cal : Cal
  account : Account

/-- The order loop of `SimulatorExecutor.execute`: each order is validated with
`check_order`; a valid order is dealt (updating the ledger) and appended to the
result list as `(order, trade_val, trade_cost, trade_price)`; an invalid order
is skipped (`# do nothing`). Returns the final ledger and the result list. -/
def dealLoop (ex : Exchange) : Int → List Order → Int × List DealtItem
  | led, [] => (led, [])
  | led, o :: os =>
    if ex.check o then
      let r := ex.deal o led
      let rest := dealLoop ex r.1 os
      (rest.1, (o, r.2.1, r.2.2.1, r.2.2.2) :: rest.2)
    else dealLoop ex led os

/-- `SimulatorExecutor.execute`: step the calendar, obtain the bar's time
range, run the order loop, then `update_bar_count` and, when
`generate_report`, `update_bar_report`. -/
def simExecute (cf : SimConf) (st : SimState) (dec : List Order) :
    SimState × List DealtItem :=
  let cal1 := st.cal.step
  let tr := cal1.bounds
  let dl := dealLoop cf.exchange st.account.ledger dec
  let a1 : Account := { st.account with ledger := dl.1 }
  let a2 := a1.update_bar_count
  let a3 := if cf.generate_report then a2.update_bar_report tr else a2
  ({ cal := cal1, account := a3 }, dl.2)

/-- `BaseExecutor.finished` for a leaf executor: its calendar is finished. -/
def simFinished (st : SimState) : Bool := st.cal.finished

/-- Modelled from the spec: the strategy collaborator (`BaseStrategy`, not under
the analysed sources), with internal state `τ`: `resetS` is
`reset(level_infra, outer_trade_decision)` (receiving the inner executor's
calendar as level infra), `generate` is
`generate_trade_decision(previous_execution_result)`. -/
structure Strategy (τ : Type) where
  resetS : Cal → List Order → τ → τ
  generate : τ → Option (List DealtItem) → τ × List Order

/-- Configuration attributes of a `SplitExecutor` instance: its own
`time_per_step`/bar length and flags, plus the inner executor's configuration
(the inner executor is the leaf `SimulatorExecutor`). -/
structure SplitConf where
  time_per_step : String
  flen : Nat
  generate_report : Bool
  track_data : Bool
  innerConf : SimConf

/-- The mutable state of a `SplitExecutor`: its own calendar, its optional
trade account (present iff `common_infra` supplied one — the
`hasattr(self, "trade_account")` guard), the inner executor's state and the
inner strategy's state. -/
structure SplitState (τ : Type) where
  cal : Cal
  account : Option Account
  inner : SimState
  strat : τ

/-- `SplitExecutor._init_sub_trading`: reset the inner executor's calendar to
exactly the current outer bar's time window (the account is kept: the inner
`reset(start_time, end_time)` only rebuilds the calendar) and reset the inner
strategy with the inner level infra and the outer decision. -/
def init_sub_trading (cf : SplitConf) (S : Strategy τ) (cal1 : Cal)
    (st : SplitState τ) (dec : List Order) : SimState × τ :=
  let tr := cal1.bounds
  let inner0 : SimState :=
    { cal := mkCal cf.innerConf.flen tr.1 tr.2, account := st.inner.account }
  (inner0, S.resetS inner0.cal dec st.strat)

/-- `SplitExecutor._update_trade_account`: `update_bar_count` and, when
`generate_report`, `update_bar_report` with the outer bar's time window. -/
def update_trade_account (cf : SplitConf) (tr : TimeRange) (a : Account) :
    Account :=
  let a1 := a.update_bar_count
  if cf.generate_report then a1.update_bar_report tr else a1

/-- The observable output of the inner while-loop of `SplitExecutor.execute`:
final inner executor state, final strategy state, the per-iteration inner
execution results, the argument passed to `generate_trade_decision` at each
iteration, and the sub-decision the strategy produced at each iteration. -/
structure LoopOut (τ : Type) where
  inner : SimState
  strat : τ
  results : List (List DealtItem)
  calls : List (Option (List DealtItem))
  decs : List (List Order)

/-- The inner while-loop of `SplitExecutor.execute`, run with explicit fuel:
while the inner executor is not finished, ask the strategy for a sub-decision
(passing the previous inner result, `None` initially) and execute it on the
inner executor.  `splitExecute` supplies fuel equal to the inner calendar's
bar count, which is proved sufficient below (the loop always exits through the
`finished` guard). -/
def splitLoop (cfI : SimConf) (S : Strategy τ) :
    Nat → SimState → τ → Option (List DealtItem) → LoopOut τ
  | 0, inner, t, _ =>
    { inner := inner, strat := t, results := [], calls := [], decs := [] }
  | Nat.succ n, inner, t, prev =>
    if simFinished inner then
      { inner := inner, strat := t, results := [], calls := [], decs := [] }
    else
      let g := S.generate t prev
      let e := simExecute cfI inner g.2
      let rest := splitLoop cfI S n e.1 g.1 (some e.2)
      { inner := rest.inner, strat := rest.strat,
        results := e.2 :: rest.results,
        calls := prev :: rest.calls,
        decs := g.2 :: rest.decs }

/-- `SplitExecutor.execute`: step the outer calendar, `_init_sub_trading`, run
the inner loop collecting all inner results, then (when a trade account is
attached) `_update_trade_account`; the concatenation of the inner results is
returned. -/
def splitExecute (cf : SplitConf) (S : Strategy τ) (st : SplitState τ)
    (dec : List Order) : SplitState τ × List DealtItem :=
  let cal1 := st.cal.step
  let sub := init_sub_trading cf S cal1 st dec
  let lo := splitLoop cf.innerConf S sub.1.cal.barCount sub.1 sub.2 none
  let account1 := st.account.map (update_trade_account cf cal1.bounds)
  ({ cal := cal1, account := account1, inner := lo.inner, strat := lo.strat },
   lo.results.flatten)

/-- The sub-decisions generated by the inner strategy along one
`SplitExecutor.execute` call (an observer of the same loop). -/
def splitDecisions (cf : SplitConf) (S : Strategy τ) (st : SplitState τ)
    (dec : List Order) : List (List Order) :=
  let cal1 := st.cal.step
  let sub := init_sub_trading cf S cal1 st dec
  (splitLoop cf.innerConf S sub.1.cal.barCount sub.1 sub.2 none).decs

/-- The trace of one run of a Python generator over machine states `σ`:
`segs` records, for each `yield` in order, the machine state at that
suspension point (every mutation textually before the yield applied, nothing
after) together with the yielded decision; `final` is the state after the body
runs to completion and `ret` its return value. -/
structure GenRun (σ : Type) where
  segs : List (σ × List Order)
  final : σ
  ret : List DealtItem

/-- The machine state after a caller consumes `k` elements of a generator and
abandons it: requesting the `k`-th element runs the body up to the `k`-th
`yield` (or to completion, if the body has fewer than `k` yields); consuming
nothing runs nothing. -/
def consume (g : GenRun σ) (k : Nat) (init : σ) : σ :=
  match k with
  | 0 => init
  | Nat.succ j =>
    match g.segs.get? j with
    | some s => s.1
    | none => g.final

/-- `BaseExecutor.collect_data` as inherited by `SimulatorExecutor`:
`if self.track_data: yield trade_decision` — suspending before any mutation —
then `return self.execute(trade_decision)`. -/
def simCollect (cf : SimConf) (st : SimState) (dec : List Order) :
    GenRun SimState :=
  { segs := if cf.track_data then [(st, dec)] else [],
    final := (simExecute cf st dec).1,
    ret := (simExecute cf st dec).2 }

/-- Output of the inner while-loop of `SplitExecutor.collect_data`: like
`LoopOut` but with the suspension points contributed by
`yield from inner_executor.collect_data(...)`; each records the inner
executor's and the strategy's state at the suspension. -/
structure CLoopOut (τ : Type) where
  inner : SimState
  strat : τ
  results : List (List DealtItem)
  segs : List ((SimState × τ) × List Order)

/-- The inner while-loop of `SplitExecutor.collect_data`: identical to the
`execute` loop except the inner bar is driven through the inner executor's
`collect_data`, whose yields are forwarded (`yield from`). -/
def splitLoopC (cfI : SimConf) (S : Strategy τ) :
    Nat → SimState → τ → Option (List DealtItem) → CLoopOut τ
  | 0, inner, t, _ =>
    { inner := inner, strat := t, results := [], segs := [] }
  | Nat.succ n, inner, t, prev =>
    if simFinished inner then
      { inner := inner, strat := t, results := [], segs := [] }
    else
      let g := S.generate t prev
      let c := simCollect cfI inner g.2
      let rest := splitLoopC cfI S n c.final g.1 (some c.ret)
      { inner := rest.inner, strat := rest.strat,
        results := c.ret :: rest.results,
        segs := c.segs.map (fun p => ((p.1, g.1), p.2)) ++ rest.segs }

/-- The composite machine state at an inner suspension point of
`SplitExecutor.collect_data`: the outer calendar already stepped, the outer
account not yet updated, the inner executor and strategy at their recorded
states. -/
def liftSeg (cal1 : Cal) (acct : Option Account)
    (p : (SimState × τ) × List Order) : SplitState τ × List Order :=
  ({ cal := cal1, account := acct, inner := p.1.1, strat := p.1.2 }, p.2)

/-- `SplitExecutor.collect_data`: `if self.track_data: yield trade_decision`
(before any mutation), then the same body as `execute` with the inner bars
driven through `collect_data`. -/
def splitCollect (cf : SplitConf) (S : Strategy τ) (st : SplitState τ)
    (dec : List Order) : GenRun (SplitState τ) :=
  let cal1 := st.cal.step
  let sub := init_sub_trading cf S cal1 st dec
  let lo := splitLoopC cf.innerConf S sub.1.cal.barCount sub.1 sub.2 none
  let account1 := st.account.map (update_trade_account cf cal1.bounds)
  { segs :=
      (if cf.track_data then [(st, dec)] else []) ++
        lo.segs.map (liftSeg cal1 st.account),
    final :=
      { cal := cal1, account := account1, inner := lo.inner,
        strat := lo.strat },
    ret := lo.results.flatten }

/-- The error raised by an unimplemented abstract operation
(`NotImplementedError` in the source). -/
inductive QlibError where
  | notImplemented (msg : String)
deriving DecidableEq, Repr

/-- `BaseExecutor.execute`: its only statement is
`raise NotImplementedError("execute is not implemented!")` — it fails for
every state and decision and produces no successor state. -/
def BaseExecutor.execute (_st : σ) (_dec : List Order) :
    Except QlibError (σ × List DealtItem) :=
  Except.error (QlibError.notImplemented ("execute is not implemented!"))

/-- `BaseExecutor.get_trade_account`: unconditionally raises. -/
def BaseExecutor.get_trade_account : Except QlibError Account :=
  Except.error (QlibError.notImplemented ("get_trade_account is not implemented!"))

/-- `BaseExecutor.get_report`: unconditionally raises. -/
def BaseExecutor.get_report : Except QlibError (List (String × Account)) :=
  Except.error (QlibError.notImplemented ("get_report is not implemented!"))

/-- The three executor classes defined in `executor.py`. -/
inductive ExecutorClass where
  | base
  | simulator
  | split
deriving DecidableEq, Repr

/-- Whether a method invoked on a class resolves to an override defined by that
class or falls through to `BaseExecutor`'s raising implementation. -/
inductive MethodImpl where
  | fromBase
  | overridden
deriving DecidableEq, Repr

/-- Method resolution for `execute`: both `SimulatorExecutor` and
`SplitExecutor` define `execute`. -/
def executeImpl : ExecutorClass → MethodImpl
  | ExecutorClass.base => MethodImpl.fromBase
  | ExecutorClass.simulator => MethodImpl.overridden
  | ExecutorClass.split => MethodImpl.overridden

/-- Method resolution for `get_report`: both concrete classes define it. -/
def get_reportImpl : ExecutorClass → MethodImpl
  | ExecutorClass.base => MethodImpl.fromBase
  | ExecutorClass.simulator => MethodImpl.overridden
  | ExecutorClass.split => MethodImpl.overridden

/-- Method resolution for `get_trade_account`: no class in `executor.py`
defines it, so every class inherits `BaseExecutor`'s raising version. -/
def get_trade_accountImpl : ExecutorClass → MethodImpl
  | _ => MethodImpl.fromBase

/-- Invoking `get_trade_account` on an executor of class `c`: the resolved
implementation is run; since no override exists, every class reaches the base
implementation and raises. -/
def callGetTradeAccount (c : ExecutorClass) : Except QlibError Account :=
  match get_trade_accountImpl c with
  | MethodImpl.fromBase => BaseExecutor.get_trade_account
  | MethodImpl.overridden =>
    Except.ok { ledger := 0, bar_count := 0, report_rows := [] }

/-- The numeric value of a string of decimal digits. -/
def digitsToNat (l : List Char) : Nat :=
  l.foldl (fun n c => n * 10 + (c.toNat - 48)) 0

/-- Modelled from the spec: `parse_freq` (qlib/utils/resam.py, not under the
analysed sources): splits a frequency string such as `"1day"` or `"day"` into
the count (default 1) and the base frequency. -/
def parse_freq (s : String) : Nat × String :=
  let ds := s.data.takeWhile Char.isDigit
  ((if ds.isEmpty then 1 else digitsToNat ds),
   String.mk (s.data.dropWhile Char.isDigit))

/-- The `f"{_count}{_freq}"` report label built from `time_per_step`. -/
def freqLabel (s : String) : String :=
  let p := parse_freq s
  toString p.1 ++ p.2

/-- Modelled from the spec: `Account.get_positions`, the positions snapshot
stored in a report entry; the abstract ledger value stands for the
cash-and-positions state. -/
def Account.get_positions (a : Account) : Int := a.ledger

/-- Modelled from the spec: `Account.report.generate_report_dataframe()`, the
accumulated per-bar report rows. -/
def Account.generate_report_dataframe (a : Account) : List TimeRange :=
  a.report_rows

/-- One value of the report mapping: `(report_rows, positions_snapshot)`. -/
def ReportEntry := List TimeRange × Int
deriving DecidableEq, Repr

/-- Python `dict.update({k: v})` on an association list without duplicate
keys: an existing key is overwritten in place, a new key is appended. -/
def dictUpdate (m : List (String × ReportEntry)) (k : String) (v : ReportEntry) :
    List (String × ReportEntry) :=
  match m with
  | [] => [(k, v)]
  | p :: rest => if p.1 = k then (k, v) :: rest else p :: dictUpdate rest k v

/-- `SimulatorExecutor.get_report`: when `generate_report`, a singleton mapping
from the executor's `"<count><frequency>"` label to its account's report rows
and positions snapshot; otherwise the empty mapping. -/
def simGetReport (cf : SimConf) (st : SimState) : List (String × ReportEntry) :=
  if cf.generate_report then
    [(freqLabel cf.time_per_step,
      (st.account.generate_report_dataframe, st.account.get_positions))]
  else []

/-- `SplitExecutor.get_report`: the inner executor's report mapping, extended
(via `dict.update`) with this level's own entry when `generate_report`.
Accessing `self.trade_account` without an attached account is an
`AttributeError`, modelled as `none`. -/
def splitGetReport (cf : SplitConf) (st : SplitState τ) :
    Option (List (String × ReportEntry)) :=
  let sub := simGetReport cf.innerConf st.inner
  if cf.generate_report then
    match st.account with
    | some a =>
      some (dictUpdate sub (freqLabel cf.time_per_step)
        (a.generate_report_dataframe, a.get_positions))
    | none => none
  else some sub

/-- The Exchange object as constructed by `get_exchange`
(`qlib/contrib/backtest/__init__.py`); only the fields the claim talks about
are carried. -/
structure ExchangeObj where
  freq : String
  deal_price : String
deriving DecidableEq, Repr

/-- `get_exchange` restricted to the arguments the claim is about.
`deal_price = None` defaults to the config's `C.deal_price` (the config module
is not under the analysed sources, so the default is passed explicitly as
`cfg_deal_price`).  With `exchange = None`, the source evaluates
`deal_price[0]`, an `IndexError` on an empty string; otherwise it prepends
`"$"` when the first character is not `"$"` and constructs the Exchange.  With
a non-`None` exchange it returns
`init_instance_by_config(exchange, accept_types=Exchange)`, modelled from the
spec as the identity on an already-constructed instance. -/
def get_exchange (exchange : Option ExchangeObj) (freq : String)
    (deal_price : Option String) (cfg_deal_price : String) :
    Except String ExchangeObj :=
  let dp := deal_price.getD cfg_deal_price
  match exchange with
  | none =>
    match dp.data with
    | [] => Except.error ("IndexError: string index out of range")
    | c :: _ =>
      let dp2 := if c ≠ '$' then ("$") ++ dp else dp
      Except.ok { freq := freq, deal_price := dp2 }
  | some e => Except.ok e

/-- An Account object under Python reference semantics, for analysing
`copy.copy` in `reset_common_infra`: scalar attributes are carried directly,
the mutable positions mapping and report object are references into a heap. -/
structure PyAccount where
  cash : Int
  bar_count : Nat
  positionsRef : Nat
  reportRef : Nat
deriving DecidableEq, Repr

/-- The heap holding the mutable positions mappings and report row lists that
`PyAccount` objects reference; `nextRep` is the next fresh report reference. -/
structure Heap where
  posStore : Nat → List (Nat × Int)
  repStore : Nat → List TimeRange
  nextRep : Nat

/-- Read the positions mapping behind a reference. -/
def Heap.getPos (h : Heap) (r : Nat) : List (Nat × Int) := h.posStore r

/-- In-place mutation of the positions mapping behind a reference (what order
dealing does to the account's positions dict). -/
def Heap.setPos (h : Heap) (r : Nat) (v : List (Nat × Int)) : Heap :=
  { h with posStore := fun i => if i = r then v else h.posStore i }

/-- Read the report rows behind a reference. -/
def Heap.getRep (h : Heap) (r : Nat) : List TimeRange := h.repStore r

/-- In-place mutation of the report object behind a reference (appending a
report row). -/
def Heap.setRep (h : Heap) (r : Nat) (v : List TimeRange) : Heap :=
  { h with repStore := fun i => if i = r then v else h.repStore i }

/-- Allocate a fresh report object on the heap. -/
def Heap.allocRep (h : Heap) (v : List TimeRange) : Heap × Nat :=
  ({ repStore := (fun i => if i = h.nextRep then v else h.repStore i),
     posStore := h.posStore,
     nextRep := h.nextRep + 1 }, h.nextRep)

/-- `copy.copy(account)`: a shallow copy — the new object carries the same
field values, so its reference-valued fields still point at the same heap
objects as the original's. -/
def copyAccount (a : PyAccount) : PyAccount := a

/-- Modelled from the spec: `Account.reset(freq=..., init_report=True)`
(account.py is not under the analysed sources): per the call site in
`reset_common_infra`, only the frequency is set and the report accumulator is
reinitialized with a fresh empty report object; the cash/positions state is
kept in place. -/
def PyAccount.resetA (a : PyAccount) (h : Heap) : PyAccount × Heap :=
  let al := h.allocRep []
  ({ a with reportRef := al.2 }, al.1)

/-- The account-handling part of `BaseExecutor.reset_common_infra`:
`self.trade_account = copy.copy(common_infra.get("trade_account"))` followed by
`self.trade_account.reset(freq=self.time_per_step, init_report=True)`. -/
def reset_common_infra_account (a : PyAccount) (h : Heap) : PyAccount × Heap :=
  (copyAccount a).resetA h

/-! Concrete instances used by witnesses and counterexamples. -/

/-- An exchange that rejects every order. -/
def exNone : Exchange :=
  { check := fun _ => false, deal := fun _ led => (led, 0, 0, 0) }

/-- An exchange that accepts every order and deals it at price 2. -/
def exAll : Exchange :=
  { check := fun _ => true,
    deal := fun o led => (led - o.amount, o.amount, 1, 2) }

/-- A sample buy order. -/
def order0 : Order := { stock_id := 0, direction := 1, amount := 1, factor := 1 }

/-- A two-bar calendar standing before its first bar. -/
def cal2 : Cal := { rstart := 0, flen := 1, barCount := 2, index := 0 }

/-- A fresh account. -/
def account0 : Account := { ledger := 0, bar_count := 0, report_rows := [] }

/-- A leaf executor state on `cal2` with a fresh account. -/
def simState0 : SimState := { cal := cal2, account := account0 }

/-- A leaf configuration whose exchange rejects everything. -/
def cfReject : SimConf :=
  { time_per_step := "1min", flen := 1, generate_report := false,
    track_data := true, exchange := exNone }

/-- A leaf configuration whose exchange accepts everything. -/
def cfDeal : SimConf :=
  { time_per_step := "1min", flen := 1, generate_report := true,
    track_data := true, exchange := exAll }

/-- A stateless strategy that always produces the decision `[order0]`. -/
def stratNull : Strategy Unit :=
  { resetS := fun _ _ _ => (), generate := fun _ _ => ((), [order0]) }

/-- A composite configuration over `cfDeal`: one outer bar of length 2 split
into two inner bars of length 1. -/
def cfSplit : SplitConf :=
  { time_per_step := "1day", flen := 2, generate_report := true,
    track_data := true, innerConf := cfDeal }

/-- A composite state with one outer bar and an attached account. -/
def splitState0 : SplitState Unit :=
  { cal := { rstart := 0, flen := 2, barCount := 1, index := 0 },
    account := some account0, inner := simState0, strat := () }

/-- A sample account object for the reference-semantics model. -/
def acct7 : PyAccount :=
  { cash := 100, bar_count := 0, positionsRef := 0, reportRef := 0 }

/-- A heap where `acct7`'s references are valid and its positions are empty. -/
def heap7 : Heap :=
  { posStore := fun _ => [], repStore := fun _ => [], nextRep := 1 }

/-! Basic lemmas about the order loop and one leaf bar. -/

/-- The orders appearing in the result list of the order loop are exactly the
orders passing `check_order`, in decision order. -/
theorem dealLoop_map_fst (ex : Exchange) (led : Int) (dec : List Order) :
    ((dealLoop ex led dec).2).map (fun x => x.1) = dec.filter ex.check := by
  induction dec generalizing led with
  | nil => simp [dealLoop]
  | cons o os ih =>
    by_cases h : ex.check o = true
    · simp [dealLoop, h, ih]
    · simp [dealLoop, h, ih, List.filter_cons]

/-- One leaf bar steps the calendar exactly once. -/
theorem simExecute_cal (cf : SimConf) (st : SimState) (dec : List Order) :
    ((simExecute cf st dec).1).cal = st.cal.step := rfl

/-- One leaf bar increments the account's completed-bar count exactly once. -/
theorem simExecute_bar_count (cf : SimConf) (st : SimState) (dec : List Order) :
    ((simExecute cf st dec).1).account.bar_count
      = st.account.bar_count + 1 := by
  unfold simExecute
  cases h : cf.generate_report <;>
    simp [h, Account.update_bar_count, Account.update_bar_report]

/-- One leaf bar appends exactly one report row when reporting is configured
and none otherwise. -/
theorem simExecute_report_rows (cf : SimConf) (st : SimState) (dec : List Order) :
    ((simExecute cf st dec).1).account.report_rows
      = (if cf.generate_report then
          st.account.report_rows ++ [(st.cal.step).bounds]
        else st.account.report_rows) := by
  unfold simExecute
  cases h : cf.generate_report <;>
    simp [h, Account.update_bar_count, Account.update_bar_report]

/-- C1, counterexample: an order rejected by `check_order` leaves no entry at
all in the result list of `SimulatorExecutor.execute` — no "not dealt" marker
is surfaced, so the result has fewer entries than the decision. -/
theorem simulator_execute_drops_invalid_order_counterexample :
    (simExecute cfReject simState0 [order0]).2 = []
      ∧ ([order0] : List Order).length = 1 := by
  exact ⟨rfl, rfl⟩

/-- C1 (amended): `SimulatorExecutor.execute` processes the orders in decision
order, validating each with the exchange and dealing it if valid; an order
that fails validation is dropped without aborting the bar and leaves no entry
in the result list, so the returned list has one entry per dealt order (in
decision order) and the bar still completes. -/
theorem simulator_execute_result_entries (cf : SimConf) (st : SimState)
    (dec : List Order) :
    ((simExecute cf st dec).2).map (fun x => x.1) = dec.filter cf.exchange.check
    ∧ ((simExecute cf st dec).1).account.bar_count = st.account.bar_count + 1 := by
  refine ⟨?_, simExecute_bar_count cf st dec⟩
  show ((dealLoop cf.exchange st.account.ledger dec).2).map _ = _
  exact dealLoop_map_fst cf.exchange st.account.ledger dec

/-- The outer account is only touched after the inner loop drains:
`splitExecute` maps `_update_trade_account` over the optional account once. -/
theorem splitExecute_account (cf : SplitConf) (S : Strategy τ)
    (st : SplitState τ) (dec : List Order) :
    ((splitExecute cf S st dec).1).account
      = st.account.map (update_trade_account cf ((st.cal.step).bounds)) := rfl

/-- C2: each executor level closes its Account's bar exactly once per
`execute` call: `SimulatorExecutor.execute` increments the bar count once and
appends exactly one report row when reporting; `SplitExecutor.execute` applies
the same update exactly once to its own (outer) account after the inner loop
drains, and the inner loop never touches the outer account. -/
theorem bar_close_once_per_execute (τ : Type) (cf : SimConf) (st : SimState)
    (dec : List Order) (cfS : SplitConf) (S : Strategy τ) (stS : SplitState τ)
    (decS : List Order) (a : Account) (hacc : stS.account = some a) :
    ((simExecute cf st dec).1).account.bar_count = st.account.bar_count + 1
    ∧ ((simExecute cf st dec).1).account.report_rows
        = (if cf.generate_report then
            st.account.report_rows ++ [(st.cal.step).bounds]
          else st.account.report_rows)
    ∧ ((splitExecute cfS S stS decS).1).account
        = some (update_trade_account cfS ((stS.cal.step).bounds) a)
    ∧ (update_trade_account cfS ((stS.cal.step).bounds) a).bar_count
        = a.bar_count + 1
    ∧ (update_trade_account cfS ((stS.cal.step).bounds) a).report_rows
        = (if cfS.generate_report then
            a.report_rows ++ [(stS.cal.step).bounds]
          else a.report_rows) := by
  refine ⟨simExecute_bar_count cf st dec, simExecute_report_rows cf st dec,
    ?_, ?_, ?_⟩
  · rw [splitExecute_account, hacc]
    rfl
  · unfold update_trade_account
    cases h : cfS.generate_report <;>
      simp [h, Account.update_bar_count, Account.update_bar_report]
  · unfold update_trade_account
    cases h : cfS.generate_report <;>
      simp [h, Account.update_bar_count, Account.update_bar_report]

/-- Witness for the bar-close theorem at a concrete two-level configuration. -/
theorem bar_close_once_per_execute_witness :
    (splitState0.account = some account0)
    ∧ (((splitExecute cfSplit stratNull splitState0 []).1).account
        = some (update_trade_account cfSplit ((splitState0.cal.step).bounds)
            account0)) :=
  ⟨rfl, (bar_close_once_per_execute Unit cfDeal simState0 [] cfSplit stratNull
      splitState0 [] account0 rfl).2.2.1⟩

/-! Invariants of the inner while-loop. -/

/-- The inner loop leaves the inner calendar's window data (`rstart`, `flen`,
`barCount`) unchanged: only the index moves. -/
theorem splitLoop_cal_inv (cfI : SimConf) (S : Strategy τ) (fuel : Nat) :
    ∀ (inner : SimState) (t : τ) (prev : Option (List DealtItem)),
      (((splitLoop cfI S fuel inner t prev).inner).cal.rstart = inner.cal.rstart)
      ∧ (((splitLoop cfI S fuel inner t prev).inner).cal.flen = inner.cal.flen)
      ∧ (((splitLoop cfI S fuel inner t prev).inner).cal.barCount
          = inner.cal.barCount) := by
  induction fuel with
  | zero => intro inner t prev; exact ⟨rfl, rfl, rfl⟩
  | succ n ih =>
    intro inner t prev
    by_cases hf : simFinished inner = true
    · simp [splitLoop, hf]
    · have h2 := ih (simExecute cfI inner (S.generate t prev).2).1
        (S.generate t prev).1 (some (simExecute cfI inner (S.generate t prev).2).2)
      simp only [splitLoop, if_neg hf]
      exact ⟨h2.1, h2.2.1, h2.2.2⟩

/-- The argument stream handed to `generate_trade_decision` by the inner loop:
the initial argument first, then the inner execution results, each feeding the
next iteration. -/
theorem splitLoop_calls (cfI : SimConf) (S : Strategy τ) (fuel : Nat) :
    ∀ (inner : SimState) (t : τ) (prev : Option (List DealtItem)),
      (splitLoop cfI S fuel inner t prev).calls
        = (prev :: ((splitLoop cfI S fuel inner t prev).results).map some).dropLast := by
  induction fuel with
  | zero => intro inner t prev; simp [splitLoop]
  | succ n ih =>
    intro inner t prev
    by_cases hf : simFinished inner = true
    · simp [splitLoop, hf]
    · have h2 := ih (simExecute cfI inner (S.generate t prev).2).1
        (S.generate t prev).1 (some (simExecute cfI inner (S.generate t prev).2).2)
      simp only [splitLoop, if_neg hf, List.map_cons, List.dropLast_cons₂]
      rw [h2]

/-- Fuel bounded below by the remaining bar budget drives the inner loop to a
finished inner executor. -/
theorem splitLoop_finished (cfI : SimConf) (S : Strategy τ) (fuel : Nat) :
    ∀ (inner : SimState) (t : τ) (prev : Option (List DealtItem)),
      inner.cal.barCount - inner.cal.index ≤ fuel →
      simFinished ((splitLoop cfI S fuel inner t prev).inner) = true := by
  induction fuel with
  | zero =>
    intro inner t prev h
    simp only [splitLoop, simFinished, Cal.finished, decide_eq_true_eq]
    omega
  | succ n ih =>
    intro inner t prev h
    by_cases hf : simFinished inner = true
    · simp [splitLoop, hf]
    · have hlt : inner.cal.index < inner.cal.barCount := by
        simp only [simFinished, Cal.finished, decide_eq_true_eq] at hf
        omega
      have hb : ((simExecute cfI inner (S.generate t prev).2).1).cal.barCount
            - ((simExecute cfI inner (S.generate t prev).2).1).cal.index ≤ n := by
        show inner.cal.barCount - (inner.cal.index + 1) ≤ n
        omega
      have h2 := ih (simExecute cfI inner (S.generate t prev).2).1
        (S.generate t prev).1
        (some (simExecute cfI inner (S.generate t prev).2).2) hb
      simpa only [splitLoop, if_neg hf] using h2

/-- C6: the inner while-loop of `SplitExecutor.execute` terminates: each
iteration advances the inner calendar index by exactly one, a fuel budget of
the inner calendar's (finite) remaining bar count always suffices to reach a
finished inner executor, and `splitExecute` leaves its inner executor
finished — the loop exits through the `finished` guard. -/
theorem split_inner_loop_terminates (τ : Type) (cfI : SimConf) (S : Strategy τ) :
    (∀ (st : SimState) (dec : List Order),
        ((simExecute cfI st dec).1).cal.index = st.cal.index + 1)
    ∧ (∀ (fuel : Nat) (inner : SimState) (t : τ) (prev : Option (List DealtItem)),
        inner.cal.barCount - inner.cal.index ≤ fuel →
        simFinished ((splitLoop cfI S fuel inner t prev).inner) = true)
    ∧ (∀ (cfS : SplitConf) (st : SplitState τ) (dec : List Order),
        simFinished (((splitExecute cfS S st dec).1).inner) = true) := by
  refine ⟨fun st dec => rfl, splitLoop_finished cfI S, ?_⟩
  intro cfS st dec
  exact splitLoop_finished cfS.innerConf S
    ((init_sub_trading cfS S (st.cal.step) st dec).1.cal.barCount)
    (init_sub_trading cfS S (st.cal.step) st dec).1
    (init_sub_trading cfS S (st.cal.step) st dec).2 none (by omega)

/-- Witness for the termination theorem at a concrete configuration. -/
theorem split_inner_loop_terminates_witness :
    (simState0.cal.barCount - simState0.cal.index ≤ 2)
    ∧ simFinished ((splitLoop cfDeal stratNull 2 simState0 () none).inner) = true :=
  ⟨by decide, (split_inner_loop_terminates Unit cfDeal stratNull).2.1 2
    simState0 () none (by decide)⟩

/-- The per-iteration inner execution results generated along one
`SplitExecutor.execute` call. -/
def splitResults (cf : SplitConf) (S : Strategy τ) (st : SplitState τ)
    (dec : List Order) : List (List DealtItem) :=
  let cal1 := st.cal.step
  let sub := init_sub_trading cf S cal1 st dec
  (splitLoop cf.innerConf S sub.1.cal.barCount sub.1 sub.2 none).results

/-- The argument handed to `generate_trade_decision` at each iteration of one
`SplitExecutor.execute` call. -/
def splitCalls (cf : SplitConf) (S : Strategy τ) (st : SplitState τ)
    (dec : List Order) : List (Option (List DealtItem)) :=
  let cal1 := st.cal.step
  let sub := init_sub_trading cf S cal1 st dec
  (splitLoop cf.innerConf S sub.1.cal.barCount sub.1 sub.2 none).calls

/-- C3: `SplitExecutor.execute` advances the outer calendar one bar, resets
the inner executor to exactly the outer bar's time window at the inner
frequency, then drives the inner strategy/executor loop: the strategy's first
call receives `None` and every later call receives the previous inner
execution result, and the concatenation of all inner results is returned. -/
theorem split_execute_drives_inner_loop (τ : Type) (cfS : SplitConf)
    (S : Strategy τ) (st : SplitState τ) (dec : List Order) :
    ((splitExecute cfS S st dec).1).cal = st.cal.step
    ∧ (((splitExecute cfS S st dec).1).inner).cal.rstart
        = ((st.cal.step).bounds).1
    ∧ (((splitExecute cfS S st dec).1).inner).cal.flen = cfS.innerConf.flen
    ∧ (((splitExecute cfS S st dec).1).inner).cal.barCount
        = (((st.cal.step).bounds).2 - ((st.cal.step).bounds).1)
            / cfS.innerConf.flen
    ∧ splitCalls cfS S st dec
        = (none :: (splitResults cfS S st dec).map some).dropLast
    ∧ (splitExecute cfS S st dec).2 = (splitResults cfS S st dec).flatten := by
  have hinv := splitLoop_cal_inv cfS.innerConf S
    ((init_sub_trading cfS S (st.cal.step) st dec).1.cal.barCount)
    (init_sub_trading cfS S (st.cal.step) st dec).1
    (init_sub_trading cfS S (st.cal.step) st dec).2 none
  have hcalls := splitLoop_calls cfS.innerConf S
    ((init_sub_trading cfS S (st.cal.step) st dec).1.cal.barCount)
    (init_sub_trading cfS S (st.cal.step) st dec).1
    (init_sub_trading cfS S (st.cal.step) st dec).2 none
  exact ⟨rfl, hinv.1, hinv.2.1, hinv.2.2, hcalls, rfl⟩

/-! `collect_data` versus `execute`. -/

/-- The state after draining a leaf `collect_data` is the `execute` state. -/
theorem simCollect_final (cf : SimConf) (st : SimState) (dec : List Order) :
    (simCollect cf st dec).final = (simExecute cf st dec).1 := rfl

/-- The value returned by a drained leaf `collect_data` is the `execute`
result. -/
theorem simCollect_ret (cf : SimConf) (st : SimState) (dec : List Order) :
    (simCollect cf st dec).ret = (simExecute cf st dec).2 := rfl

/-- A leaf `collect_data` yields the decision itself (before any mutation)
exactly when `track_data` is set. -/
theorem simCollect_segs (cf : SimConf) (st : SimState) (dec : List Order) :
    (simCollect cf st dec).segs
      = (if cf.track_data then [(st, dec)] else []) := rfl

/-- Draining the `collect_data` loop produces the same inner executor state,
strategy state and per-iteration results as the `execute` loop. -/
theorem splitLoopC_eq_splitLoop (cfI : SimConf) (S : Strategy τ) (fuel : Nat) :
    ∀ (inner : SimState) (t : τ) (prev : Option (List DealtItem)),
      ((splitLoopC cfI S fuel inner t prev).inner
          = (splitLoop cfI S fuel inner t prev).inner)
      ∧ ((splitLoopC cfI S fuel inner t prev).strat
          = (splitLoop cfI S fuel inner t prev).strat)
      ∧ ((splitLoopC cfI S fuel inner t prev).results
          = (splitLoop cfI S fuel inner t prev).results) := by
  induction fuel with
  | zero => intro inner t prev; exact ⟨rfl, rfl, rfl⟩
  | succ n ih =>
    intro inner t prev
    by_cases hf : simFinished inner = true
    · simp [splitLoopC, splitLoop, hf]
    · have h2 := ih (simExecute cfI inner (S.generate t prev).2).1
        (S.generate t prev).1 (some (simExecute cfI inner (S.generate t prev).2).2)
      simp only [splitLoopC, splitLoop, if_neg hf, simCollect_final, simCollect_ret]
      exact ⟨h2.1, h2.2.1, by rw [h2.2.2]⟩

/-- Tagging each suspension with the strategy state leaves the yielded
decisions unchanged. -/
theorem map_snd_pair_strat (t2 : τ) (l : List (SimState × List Order)) :
    (l.map (fun p => ((p.1, t2), p.2))).map
        (fun (q : (SimState × τ) × List Order) => q.2)
      = l.map (fun p => p.2) := by
  induction l with
  | nil => rfl
  | cons a l ih =>
    simp only [List.map_cons]
    rw [ih]

/-- Lifting suspension states into the composite state leaves the yielded
decisions unchanged. -/
theorem map_snd_liftSeg (cal1 : Cal) (acct : Option Account)
    (l : List ((SimState × τ) × List Order)) :
    (l.map (liftSeg cal1 acct)).map (fun (p : SplitState τ × List Order) => p.2)
      = l.map (fun p => p.2) := by
  induction l with
  | nil => rfl
  | cons a l ih =>
    simp only [List.map_cons]
    rw [ih]
    rfl

/-- The decisions yielded by the `collect_data` loop are exactly the
sub-decisions the `execute` loop generates, when the inner executor tracks
data, and nothing otherwise. -/
theorem splitLoopC_segs (cfI : SimConf) (S : Strategy τ) (fuel : Nat) :
    ∀ (inner : SimState) (t : τ) (prev : Option (List DealtItem)),
      ((splitLoopC cfI S fuel inner t prev).segs).map (fun p => p.2)
        = (if cfI.track_data then (splitLoop cfI S fuel inner t prev).decs
           else []) := by
  induction fuel with
  | zero => intro inner t prev; simp [splitLoopC, splitLoop]
  | succ n ih =>
    intro inner t prev
    by_cases hf : simFinished inner = true
    · simp [splitLoopC, splitLoop, hf]
    · have h2 := ih (simExecute cfI inner (S.generate t prev).2).1
        (S.generate t prev).1 (some (simExecute cfI inner (S.generate t prev).2).2)
      simp only [splitLoopC, splitLoop, if_neg hf, simCollect_final,
        simCollect_ret, simCollect_segs]
      rw [List.map_append, map_snd_pair_strat, h2]
      by_cases ht : cfI.track_data = true
      · simp [ht]
      · simp [ht]

/-- C5: fully draining `collect_data` returns the same execution result and
produces the same final state as `execute`, at the leaf and at the composite
level, while additionally yielding the decision itself (when `track_data`)
followed by every sub-decision generated along the way (yielded by the inner
level when it tracks data). -/
theorem collect_data_refines_execute (τ : Type) :
    (∀ (cf : SimConf) (st : SimState) (dec : List Order),
        ((simCollect cf st dec).final = (simExecute cf st dec).1)
        ∧ ((simCollect cf st dec).ret = (simExecute cf st dec).2)
        ∧ (((simCollect cf st dec).segs).map (fun p => p.2)
            = (if cf.track_data then [dec] else [])))
    ∧ (∀ (cfS : SplitConf) (S : Strategy τ) (st : SplitState τ) (dec : List Order),
        ((splitCollect cfS S st dec).final = (splitExecute cfS S st dec).1)
        ∧ ((splitCollect cfS S st dec).ret = (splitExecute cfS S st dec).2)
        ∧ (((splitCollect cfS S st dec).segs).map (fun p => p.2)
            = (if cfS.track_data then [dec] else [])
                ++ (if cfS.innerConf.track_data then splitDecisions cfS S st dec
                    else []))) := by
  constructor
  · intro cf st dec
    refine ⟨rfl, rfl, ?_⟩
    by_cases ht : cf.track_data = true <;> simp [simCollect, ht]
  · intro cfS S st dec
    have he := splitLoopC_eq_splitLoop cfS.innerConf S
      ((init_sub_trading cfS S (st.cal.step) st dec).1.cal.barCount)
      (init_sub_trading cfS S (st.cal.step) st dec).1
      (init_sub_trading cfS S (st.cal.step) st dec).2 none
    have hs := splitLoopC_segs cfS.innerConf S
      ((init_sub_trading cfS S (st.cal.step) st dec).1.cal.barCount)
      (init_sub_trading cfS S (st.cal.step) st dec).1
      (init_sub_trading cfS S (st.cal.step) st dec).2 none
    refine ⟨?_, ?_, ?_⟩
    · show SplitState.mk _ _ _ _ = SplitState.mk _ _ _ _
      rw [he.1, he.2.1]
    · show List.flatten _ = List.flatten _
      rw [he.2.2]
    · show ((if cfS.track_data then [(st, dec)] else [])
          ++ _).map (fun p => p.2) = _
      rw [List.map_append, map_snd_liftSeg, hs]
      by_cases ht : cfS.track_data = true <;> simp [ht, splitDecisions]

/-- C4, counterexample: with `track_data` enabled, consuming the first yielded
decision of `collect_data` and then abandoning the sequence leaves the Account
exactly as before — the bar's mutations have not happened — while fully
draining it leaves the bar closed: the two account states differ. -/
theorem abandoned_collect_data_counterexample :
    (consume (simCollect cfReject simState0 []) 1 simState0).account
      ≠ ((simCollect cfReject simState0 []).final).account := by
  decide

/-- C4 (amended): abandoning the sequence returned by `collect_data` leaves
the state reached at the last consumed suspension point: with `track_data`
enabled, consuming only the initially yielded decision performs none of the
bar's calendar step, order dealing or account updates (at the leaf and at the
composite level), and the full effects of `execute` are obtained exactly when
the sequence is driven past its last yield. -/
theorem abandoned_collect_data_state (τ : Type) (cf : SimConf) (st : SimState)
    (dec : List Order) (cfS : SplitConf) (S : Strategy τ) (stS : SplitState τ)
    (decS : List Order) (h1 : cf.track_data = true)
    (h2 : cfS.track_data = true) :
    consume (simCollect cf st dec) 1 st = st
    ∧ (∀ k, ((simCollect cf st dec).segs).length < k →
        consume (simCollect cf st dec) k st = (simExecute cf st dec).1)
    ∧ consume (splitCollect cfS S stS decS) 1 stS = stS := by
  refine ⟨?_, ?_, ?_⟩
  · simp [consume, simCollect, h1]
  · intro k hk
    match k with
    | 0 => omega
    | Nat.succ j =>
      have hnone : ((simCollect cf st dec).segs)[j]? = none :=
        List.getElem?_eq_none (by omega)
      simp [consume, hnone, simCollect_final]
  · have hseg : ((splitCollect cfS S stS decS).segs)[0]?
        = some (stS, decS) := by
      show ((if cfS.track_data then [(stS, decS)] else []) ++ _)[0]? = _
      rw [h2]
      simp
    simp [consume, hseg]

/-- Witness for the abandonment theorem at a concrete input. -/
theorem abandoned_collect_data_state_witness :
    (cfReject.track_data = true ∧ cfSplit.track_data = true)
    ∧ consume (simCollect cfReject simState0 []) 1 simState0 = simState0 :=
  ⟨⟨rfl, rfl⟩, (abandoned_collect_data_state Unit cfReject simState0 []
      cfSplit stratNull splitState0 [] rfl rfl).1⟩

/-- C7, counterexample: after `reset_common_infra` stores
`copy.copy(trade_account)` (with its report reinitialized), an in-place
mutation of the positions mapping through the executor's account is visible
through the caller's original Account object: its positions view changes from
empty to the mutated mapping. -/
theorem shallow_copy_account_counterexample :
    ((reset_common_infra_account acct7 heap7).2.setPos
        ((reset_common_infra_account acct7 heap7).1).positionsRef
        [(7, 100)]).getPos acct7.positionsRef
      ≠ heap7.getPos acct7.positionsRef := by
  decide

/-- C7 (amended): `reset_common_infra` stores a *shallow* copy of the injected
Account with a freshly (re)initialized report: the copy's scalar attributes
(such as cash) are independent of the original's, and its report object is a
fresh one — mutating it leaves the original's report unchanged — but the
positions mapping stays shared, so in-place position mutations through the
executor's account are visible through the caller's original Account. -/
theorem reset_common_infra_shallow_copy (a : PyAccount) (h : Heap)
    (hrep : a.reportRef < h.nextRep) :
    ((reset_common_infra_account a h).1).positionsRef = a.positionsRef
    ∧ (∀ v, ((reset_common_infra_account a h).2.setPos
          ((reset_common_infra_account a h).1).positionsRef v).getPos
            a.positionsRef = v)
    ∧ ((reset_common_infra_account a h).1).reportRef ≠ a.reportRef
    ∧ (∀ rows, ((reset_common_infra_account a h).2.setRep
          ((reset_common_infra_account a h).1).reportRef rows).getRep
            a.reportRef
        = ((reset_common_infra_account a h).2).getRep a.reportRef)
    ∧ ((reset_common_infra_account a h).1).cash = a.cash := by
  refine ⟨rfl, ?_, ?_, ?_, rfl⟩
  · intro v
    simp [reset_common_infra_account, copyAccount, PyAccount.resetA,
      Heap.allocRep, Heap.setPos, Heap.getPos]
  · show h.nextRep ≠ a.reportRef
    omega
  · intro rows
    have hne : ¬(a.reportRef = h.nextRep) := by omega
    simp [reset_common_infra_account, copyAccount, PyAccount.resetA,
      Heap.allocRep, Heap.setRep, Heap.getRep, hne]

/-- Witness for the shallow-copy theorem at a concrete account and heap. -/
theorem reset_common_infra_shallow_copy_witness :
    acct7.reportRef < heap7.nextRep
    ∧ ((reset_common_infra_account acct7 heap7).2.setPos
        ((reset_common_infra_account acct7 heap7).1).positionsRef
        [(7, 100)]).getPos acct7.positionsRef = [(7, 100)] :=
  ⟨by decide,
    (reset_common_infra_shallow_copy acct7 heap7 (by decide)).2.1 [(7, 100)]⟩

/-- C8, counterexample: `get_trade_account` is overridden by neither concrete
subclass, so invoking it on a `SimulatorExecutor` reaches `BaseExecutor`'s
implementation and raises — the error is reachable through a concrete
subclass. -/
theorem get_trade_account_not_overridden_counterexample :
    callGetTradeAccount ExecutorClass.simulator
      = Except.error (QlibError.notImplemented
          ("get_trade_account is not implemented!")) := rfl

/-- C8 (amended): the abstract base's `execute`, `get_trade_account` and
`get_report` always raise `NotImplementedError` for every input, producing no
successor state; both concrete subclasses override `execute` and `get_report`,
but neither overrides `get_trade_account`, which therefore raises the same
error on the concrete executors as well. -/
theorem base_methods_raise_not_implemented :
    (∀ (σ : Type) (st : σ) (dec : List Order),
        BaseExecutor.execute st dec
          = Except.error (QlibError.notImplemented
              ("execute is not implemented!")))
    ∧ BaseExecutor.get_trade_account
        = Except.error (QlibError.notImplemented
            ("get_trade_account is not implemented!"))
    ∧ BaseExecutor.get_report
        = Except.error (QlibError.notImplemented
            ("get_report is not implemented!"))
    ∧ executeImpl ExecutorClass.simulator = MethodImpl.overridden
    ∧ executeImpl ExecutorClass.split = MethodImpl.overridden
    ∧ get_reportImpl ExecutorClass.simulator = MethodImpl.overridden
    ∧ get_reportImpl ExecutorClass.split = MethodImpl.overridden
    ∧ get_trade_accountImpl ExecutorClass.simulator = MethodImpl.fromBase
    ∧ get_trade_accountImpl ExecutorClass.split = MethodImpl.fromBase
    ∧ (∀ (c : ExecutorClass), callGetTradeAccount c
        = Except.error (QlibError.notImplemented
            ("get_trade_account is not implemented!"))) :=
  ⟨fun _ _ _ => rfl, rfl, rfl, rfl, rfl, rfl, rfl, rfl, rfl, fun _ => rfl⟩


/-! The report mapping. -/

/-- Looking up a key in an association-list mapping. -/
def lookupKey (m : List (String × ReportEntry)) (k : String) :
    Option ReportEntry :=
  match m with
  | [] => none
  | p :: rest => if p.1 = k then some p.2 else lookupKey rest k

/-- After `dict.update({k: v})`, looking up `k` yields `v`. -/
theorem lookupKey_dictUpdate_self (k : String) (v : ReportEntry) :
    ∀ (m : List (String × ReportEntry)),
      lookupKey (dictUpdate m k v) k = some v := by
  intro m
  induction m with
  | nil => simp [dictUpdate, lookupKey]
  | cons p rest ih =>
    by_cases hp : p.1 = k
    · simp [dictUpdate, lookupKey, hp]
    · simp [dictUpdate, lookupKey, hp, ih]

/-- `dict.update({k: v})` leaves every other key's binding unchanged. -/
theorem lookupKey_dictUpdate_other (k k2 : String) (v : ReportEntry)
    (hne : k2 ≠ k) :
    ∀ (m : List (String × ReportEntry)),
      lookupKey (dictUpdate m k v) k2 = lookupKey m k2 := by
  intro m
  have hk : ¬(k = k2) := fun h => hne h.symm
  induction m with
  | nil => simp [dictUpdate, lookupKey, hk]
  | cons p rest ih =>
    by_cases hp : p.1 = k
    · have hp2 : ¬(p.1 = k2) := by
        rw [hp]
        exact hk
      simp [dictUpdate, lookupKey, hp, hp2, hk]
    · by_cases hq : p.1 = k2
      · simp [dictUpdate, lookupKey, hp, hq, hne]
      · simp [dictUpdate, lookupKey, hp, hq, ih]

/-- C9: `get_report` on the composite executor returns the inner executor's
report mapping extended with the composite's own `"<count><frequency>"` entry
exactly when it is configured to generate a report (looking up that label
yields the composite's `(report_rows, positions)` pair, every other label's
binding staying the inner mapping's); without `generate_report` the inner
mapping is returned unchanged; a leaf executor not configured to report
returns the empty mapping, a reporting leaf its own singleton entry. -/
theorem get_report_mapping (τ : Type) :
    (∀ (cfS : SplitConf) (st : SplitState τ) (a : Account),
        cfS.generate_report = true → st.account = some a →
        splitGetReport cfS st
          = some (dictUpdate (simGetReport cfS.innerConf st.inner)
              (freqLabel cfS.time_per_step)
              (a.generate_report_dataframe, a.get_positions))
        ∧ lookupKey (dictUpdate (simGetReport cfS.innerConf st.inner)
              (freqLabel cfS.time_per_step)
              (a.generate_report_dataframe, a.get_positions))
            (freqLabel cfS.time_per_step)
          = some (a.generate_report_dataframe, a.get_positions)
        ∧ (∀ k2, k2 ≠ freqLabel cfS.time_per_step →
            lookupKey (dictUpdate (simGetReport cfS.innerConf st.inner)
                (freqLabel cfS.time_per_step)
                (a.generate_report_dataframe, a.get_positions)) k2
              = lookupKey (simGetReport cfS.innerConf st.inner) k2))
    ∧ (∀ (cfS : SplitConf) (st : SplitState τ), cfS.generate_report = false →
        splitGetReport cfS st = some (simGetReport cfS.innerConf st.inner))
    ∧ (∀ (cf : SimConf) (st : SimState), cf.generate_report = false →
        simGetReport cf st = [])
    ∧ (∀ (cf : SimConf) (st : SimState), cf.generate_report = true →
        simGetReport cf st
          = [(freqLabel cf.time_per_step,
              (st.account.generate_report_dataframe,
               st.account.get_positions))]) := by
  refine ⟨?_, ?_, ?_, ?_⟩
  · intro cfS st a hrep hacc
    refine ⟨by simp [splitGetReport, hrep, hacc], lookupKey_dictUpdate_self _ _ _, ?_⟩
    intro k2 hk2
    exact lookupKey_dictUpdate_other _ k2 _ hk2 _
  · intro cfS st hrep
    simp [splitGetReport, hrep]
  · intro cf st hrep
    simp [simGetReport, hrep]
  · intro cf st hrep
    simp [simGetReport, hrep]

/-- Witness for the report-mapping theorem: the concrete two-level
configuration reports under the label `"1day"`. -/
theorem get_report_mapping_witness :
    (cfSplit.generate_report = true ∧ splitState0.account = some account0
      ∧ freqLabel cfSplit.time_per_step = ("1day"))
    ∧ splitGetReport cfSplit splitState0
        = some (dictUpdate (simGetReport cfSplit.innerConf splitState0.inner)
            (freqLabel cfSplit.time_per_step)
            (account0.generate_report_dataframe, account0.get_positions)) :=
  ⟨⟨rfl, rfl, by decide⟩, ((get_report_mapping Unit).1 cfSplit splitState0
      account0 rfl rfl).1⟩

/-! The deal-price handling of `get_exchange`. -/

/-- Unfolding `get_exchange` on the `exchange = None` branch. -/
theorem get_exchange_none_eq (freq cfg : String) (dpo : Option String) :
    get_exchange none freq dpo cfg
      = (match (dpo.getD cfg).data with
         | [] => Except.error ("IndexError: string index out of range")
         | c :: _ =>
           Except.ok ⟨freq,
             (if c ≠ '$' then ("$") ++ dpo.getD cfg else dpo.getD cfg)⟩) :=
  rfl

/-- C10, counterexample: `get_exchange` called with `exchange = None` and an
empty `deal_price` string raises `IndexError` from `deal_price[0]` — no
Exchange is constructed at all. -/
theorem get_exchange_empty_deal_price_counterexample :
    get_exchange none ("day") (some ("")) ("close")
      = Except.error ("IndexError: string index out of range") := rfl

/-- C10 (amended): whenever `exchange = None` and the effective deal price
(the argument, or the config default when the argument is `None`) is
non-empty, the Exchange is constructed with a deal-price string starting with
`"$"` — `"$"` is prepended when missing, and the string passes through
unchanged when already present; an empty effective deal price raises
`IndexError` before any Exchange is constructed; with a non-`None` exchange
instance no new Exchange is constructed and the deal-price argument is
ignored. -/
theorem get_exchange_deal_price_dollar (freq cfg : String)
    (dpo : Option String) (e : ExchangeObj)
    (hne : (dpo.getD cfg).data ≠ []) :
    (∃ ex, get_exchange none freq dpo cfg = Except.ok ex
        ∧ (ex.deal_price.data).head? = some '$'
        ∧ ex.deal_price
            = (if ((dpo.getD cfg).data).head? = some '$' then dpo.getD cfg
               else ("$") ++ dpo.getD cfg))
    ∧ (∀ dpo2, get_exchange (some e) freq dpo2 cfg = Except.ok e) := by
  constructor
  · rw [get_exchange_none_eq]
    cases hd : (dpo.getD cfg).data with
    | nil => exact absurd hd hne
    | cons c rest =>
      by_cases hc : c = '$'
      · subst hc
        refine ⟨_, rfl, ?_, ?_⟩
        · simp [hd]
        · simp [hd]
      · refine ⟨_, rfl, ?_, ?_⟩
        · simp [hc, String.data_append]
        · simp [hd, hc]
  · intro dpo2
    rfl

/-- Witness for the deal-price theorem at the concrete argument `"close"`. -/
theorem get_exchange_deal_price_dollar_witness :
    ((some ("close") : Option String).getD ("close")).data ≠ []
    ∧ (∃ ex, get_exchange none ("day") (some ("close")) ("close")
        = Except.ok ex ∧ (ex.deal_price.data).head? = some '$'
        ∧ ex.deal_price
            = (if (((some ("close") : Option String).getD ("close")).data).head?
                  = some '$'
               then (some ("close") : Option String).getD ("close")
               else ("$") ++ (some ("close") : Option String).getD ("close"))) :=
  ⟨by decide,
    (get_exchange_deal_price_dollar ("day") ("close") (some ("close"))
      { freq := ("day"), deal_price := ("$close") } (by decide)).1⟩

end QlibBacktest
